import Mathlib

/-!
Shallow embedding of the TTSLA crossword / Katla guessing core.

Sources embedded here:
* `evaluateGuess` from `src/apps/frontend/src/scenes/MainScene/index.tsx` (lines 160-185)
* `evaluateGuess` from `src/unnamed/part_000` (lines 30-54)
* `fillWordOnBoard` from `src/apps/frontend/src/data/gameData.ts` (lines 441-464)
* `handleMarkSolved` and `submitGuess` from `MainScene/index.tsx`
* the `POST /api/katla/check` handler and `loadPuzzleTemplateById` from
  `src/apps/backend/src/index.ts`

JavaScript strings are modelled as `List Char`; a board cell (a JS string,
`""` when empty) is a `List Char`.  JS `Record<number, T>` objects are
modelled as functions `Nat → T` with the record's default (`false` / `[]`)
for absent keys, updated pointwise exactly where the source spreads a new
key.  JS array writes `a[i] = v` occur in the embedded code only at
`i ≤ a.length`; `jsSetTile` reproduces both the in-place write and the
one-past-the-end extension that `MainScene.evaluateGuess` performs when the
guess is longer than the target.
-/

/-- Tile feedback states, from the `KatlaTileState` union (minus `"empty"`,
which the evaluators never produce) and the `GuessStatus` union of
`part_000`. -/
inductive KTile where
  | correct
  | present
  | absent
deriving DecidableEq, Repr

/-- JS `Array.prototype.findIndex`, returning the first index whose element
satisfies the predicate (`none` for `-1`). -/
def jsFindIndex (p : α → Bool) : List α → Option Nat
  | [] => none
  | a :: l => if p a then some 0 else (jsFindIndex p l).map (· + 1)

/-- JS `result[i] = v` on a tile array: in place when `i < length`,
appending when `i = length` (the only out-of-range index the embedded code
ever writes). -/
def jsSetTile (l : List KTile) (i : Nat) (v : KTile) : List KTile :=
  if i < l.length then l.set i v else l ++ [v]

/-- Pass 1 of `MainScene.evaluateGuess`: walk the guess characters with
index `i`; on `guessChars[i] === target[i]` mark `correct` and null the
`remaining` entry at `i`.  (The match can only fire at `i < target.length`,
so the JS write `result[i] = "correct"` is always in place, as is
`remaining[i] = null`.) -/
def pass1 (target : List Char) :
    List Char → Nat → List KTile → List (Option Char) → List KTile × List (Option Char)
  | [], _, res, rem => (res, rem)
  | c :: gs, i, res, rem =>
    if target[i]? = some c then
      pass1 target gs (i + 1) (res.set i KTile.correct) (rem.set i none)
    else
      pass1 target gs (i + 1) res rem

/-- Pass 2 of `MainScene.evaluateGuess`: for each guess position not marked
`correct`, consume the first remaining occurrence of the character
(`present`) or mark `absent`. -/
def pass2 : List Char → Nat → List KTile → List (Option Char) → List KTile
  | [], _, res, _ => res
  | c :: gs, i, res, rem =>
    if res[i]? = some KTile.correct then
      pass2 gs (i + 1) res rem
    else
      match jsFindIndex (· == some c) rem with
      | some j => pass2 gs (i + 1) (jsSetTile res i KTile.present) (rem.set j none)
      | none => pass2 gs (i + 1) (jsSetTile res i KTile.absent) rem

/-- `evaluateGuess` from `MainScene/index.tsx` lines 160-185. -/
def evaluateGuess (guess target : List Char) : List KTile :=
  let res := List.replicate target.length KTile.absent
  let rem := target.map some
  let p := pass1 target guess 0 res rem
  pass2 guess 0 p.1 p.2

/-- Pass 1 of the `part_000` evaluator: iterate over the answer positions;
`normalizedGuess[index] === normalizedAnswer[index]` marks `correct` and
blanks `answerChars[index]` (the JS `""` sentinel is modelled by `none`). -/
def pass1b (guess : List Char) :
    List Char → Nat → List KTile → List (Option Char) → List KTile × List (Option Char)
  | [], _, sts, ac => (sts, ac)
  | a :: rest, i, sts, ac =>
    if guess[i]? = some a then
      pass1b guess rest (i + 1) (sts.set i KTile.correct) (ac.set i none)
    else
      pass1b guess rest (i + 1) sts ac

/-- Pass 2 of the `part_000` evaluator: iterate over the answer positions;
a position not marked `correct` whose guess letter (`undefined` when the
guess is shorter — JS `indexOf(undefined)` finds nothing among the string
entries) occurs in `answerChars` is marked `present`, consuming it;
otherwise the initial `absent` is kept (the JS code has no `else` write). -/
def pass2b (guess : List Char) :
    List Char → Nat → List KTile → List (Option Char) → List KTile
  | [], _, sts, _ => sts
  | _ :: rest, i, sts, ac =>
    if sts[i]? = some KTile.correct then
      pass2b guess rest (i + 1) sts ac
    else
      match guess[i]? with
      | some c =>
        match jsFindIndex (· == some c) ac with
        | some j => pass2b guess rest (i + 1) (sts.set i KTile.present) (ac.set j none)
        | none => pass2b guess rest (i + 1) sts ac
      | none => pass2b guess rest (i + 1) sts ac

/-- `evaluateGuess` from `src/unnamed/part_000` lines 30-54 (it uppercases
both inputs first). -/
def evaluateGuessP0 (guess answer : List Char) : List KTile :=
  let g := guess.map Char.toUpper
  let a := answer.map Char.toUpper
  let sts := List.replicate a.length KTile.absent
  let ac := a.map some
  let p := pass1b g a 0 sts ac
  pass2b g a 0 p.1 p.2

/-- Slot direction, the `Arah` union (`"mendatar"` = across, `"menurun"` =
down). -/
inductive Arah where
  | mendatar
  | menurun
deriving DecidableEq, Repr

/-- A `TTSSlot` from `gameData.ts` (the `length` field is carried
separately from `word` exactly as in the source; coordinates are JS
numbers, modelled as `Int` so the source's `row >= 0` bounds checks are
meaningful). -/
structure TTSSlot where
  no : Nat
  arah : Arah
  start : Int × Int
  length : Nat
  word : List Char
deriving DecidableEq, Repr

/-- The fields of `TTSTemplate` used by the embedded logic
(`fillWordOnBoard` and `handleMarkSolved` read only `template.words`). -/
structure TTSTemplate where
  words : List TTSSlot
deriving DecidableEq, Repr

/-- A board cell: a JS string, `[]` when empty. -/
abbrev Cell := List Char

/-- The shared letter grid, JS `string[][]`. -/
abbrev Board := List (List Cell)

/-- The cell coordinate a slot reaches at offset `i`:
`row = arah === "mendatar" ? startRow : startRow + i`,
`col = arah === "mendatar" ? startCol + i : startCol`. -/
def slotCoord (slot : TTSSlot) (i : Nat) : Int × Int :=
  match slot.arah with
  | Arah.mendatar => (slot.start.1, slot.start.2 + i)
  | Arah.menurun => (slot.start.1 + i, slot.start.2)

/-- Guarded write `newBoard[row][col] = v` with the bounds check
`row >= 0 && row < newBoard.length && col >= 0 && col < newBoard[row].length`
from `fillWordOnBoard`. -/
def setCell (b : Board) (row col : Int) (v : Cell) : Board :=
  if 0 ≤ row ∧ row < (b.length : Int) then
    let r := b.getD row.toNat []
    if 0 ≤ col ∧ col < (r.length : Int) then
      b.set row.toNat (r.set col.toNat v)
    else b
  else b

/-- The write loop of `fillWordOnBoard`: `for (let i = 0; i < chars.length;
i += 1)` writes `chars[i]` (a one-character string) at the slot's cell at
offset `i`, bounds-checked. -/
def fillLoop (slot : TTSSlot) : Board → List Char → Nat → Board
  | b, [], _ => b
  | b, c :: cs, i =>
    let rc := slotCoord slot i
    fillLoop slot (setCell b rc.1 rc.2 [c]) cs (i + 1)

/-- `fillWordOnBoard` from `gameData.ts` lines 441-464. -/
def fillWordOnBoard (board : Board) (template : TTSTemplate) (wordNo : Nat)
    (answer : List Char) : Board :=
  match template.words.find? (fun w => w.no == wordNo) with
  | none => board
  | some slot => fillLoop slot board answer 0

/-- Read of `updatedBoard[row][col]` with the bounds check from the
auto-solve scan in `handleMarkSolved` (`none` when out of bounds). -/
def cellAtI (b : Board) (row col : Int) : Option Cell :=
  if 0 ≤ row ∧ row < (b.length : Int) then
    let r := b.getD row.toNat []
    if 0 ≤ col ∧ col < (r.length : Int) then some (r.getD col.toNat [])
    else none
  else none

/-- The `allFilled` / `wordFromBoard` scan of `handleMarkSolved`: walk the
slot's `slot.length` cells from offset `i`; an out-of-bounds or empty cell
aborts (`none`); otherwise the concatenation of the cell strings
(`wordFromBoard.join("")`) is returned. -/
def readSlotCells (b : Board) (slot : TTSSlot) : Nat → Nat → Option (List Char)
  | _, 0 => some []
  | i, fuel + 1 =>
    let rc := slotCoord slot i
    match cellAtI b rc.1 rc.2 with
    | some cell =>
      if cell = [] then none
      else (readSlotCells b slot (i + 1) fuel).map (cell ++ ·)
    | none => none

/-- A `JawabanHarianEntry` from `gameData.ts` (`jawaban : string | null`). -/
structure JawabanHarianEntry where
  no : Nat
  jawaban : Option (List Char)
  kbbi_valid : Bool
  playable : Bool
deriving DecidableEq, Repr

/-- A `DailyPuzzle` (only the `jawaban_harian` list is read by the embedded
logic). -/
structure DailyPuzzle where
  jawaban_harian : List JawabanHarianEntry
deriving DecidableEq, Repr

/-- The puzzle-state fields touched by `handleMarkSolved`: the shared
letter grid and the `solvedEntries` / `failedEntries` records. -/
structure GameState where
  board : Board
  solved : Nat → Bool
  failed : Nat → Bool

/-- The per-entry body of the auto-solve scan in `handleMarkSolved` (lines
403-428): skip entries already in `updatedSolved` or in the pre-update
`failedEntries`; skip entries with no matching slot; otherwise auto-solve
exactly when every slot cell is in bounds and non-empty and the joined word
equals `entry.jawaban` (JS `=== null` is false, so a `null` answer never
matches). -/
def isAutoSolved (board : Board) (tpl : TTSTemplate) (updatedSolved failed : Nat → Bool)
    (e : JawabanHarianEntry) : Bool :=
  if updatedSolved e.no || failed e.no then false
  else
    match tpl.words.find? (fun w => w.no == e.no) with
    | none => false
    | some slot =>
      match readSlotCells board slot 0 slot.length, e.jawaban with
      | some w, some j => w == j
      | _, _ => false

/-- `handleMarkSolved` from `MainScene/index.tsx` lines 390-437: guard on a
non-null, non-empty `activeEntry.jawaban`; mark the active entry solved and
un-failed; write its answer on the board; then scan every entry once and
merge the auto-solved ones into `solvedEntries`. -/
def handleMarkSolved (dp : DailyPuzzle) (tpl : TTSTemplate) (st : GameState)
    (ae : JawabanHarianEntry) : GameState :=
  match ae.jawaban with
  | none => st
  | some j =>
    if j = [] then st
    else
      let updatedSolved := fun n => n == ae.no || st.solved n
      let updatedBoard := fillWordOnBoard st.board tpl ae.no j
      let auto := fun n =>
        (dp.jawaban_harian.filter
          (fun e => isAutoSolved updatedBoard tpl updatedSolved st.failed e)).any
          (fun e => e.no == n)
      { board := updatedBoard
        solved := fun n => updatedSolved n || auto n
        failed := fun n => if n == ae.no then false else st.failed n }

/-- A `GuessResult` record: the normalized guess and its per-tile states. -/
structure GuessResult where
  guess : List Char
  states : List KTile
deriving DecidableEq, Repr

/-- Outcome of the `fetch` to `POST /api/katla/check` as seen by
`submitGuess`: a thrown error / non-OK status, or a parsed
`{ valid, correct }` body (the `correct` field is never read by the
frontend). -/
inductive ValidationResult where
  | transportError
  | response (valid : Bool) (correct : Bool)
deriving DecidableEq, Repr

/-- The component state read and written by `submitGuess`
(`katlaGuesses` mirrors `entryAttempts[activeEntry.no]` for the active
slot; both are updated together by the source). -/
structure KatlaState where
  board : Board
  solved : Nat → Bool
  failed : Nat → Bool
  katlaGuesses : List GuessResult
  entryAttempts : Nat → List GuessResult
  currentGuess : List Char

/-- `maxAttempts` from `MainScene/index.tsx` line 312. -/
def maxAttempts : Nat := 6

/-- `submitGuess` from `MainScene/index.tsx` lines 468-565.  Guards in
source order: falsy `activeEntry.jawaban` / `activeEntryLength`;
`katlaGuesses.length >= maxAttempts`; guess-length mismatch; then the
validation call (a transport failure or an invalid word returns with no
state change); an accepted guess is scored by `evaluateGuess`, appended to
the attempt lists, and either marks the slot solved (all `correct`,
running `handleMarkSolved` on the pre-submission board/solved/failed) or,
on the sixth recorded attempt, marks it failed. -/
def submitGuess (dp : DailyPuzzle) (tpl : TTSTemplate) (st : KatlaState)
    (ae : JawabanHarianEntry) (aeLen : Option Nat) (validation : ValidationResult) :
    KatlaState :=
  match ae.jawaban, aeLen with
  | some jaw, some len =>
    if jaw = [] ∨ len = 0 then st
    else if maxAttempts ≤ st.katlaGuesses.length then st
    else if st.currentGuess.length ≠ len then st
    else
      match validation with
      | ValidationResult.transportError => st
      | ValidationResult.response valid _ =>
        if !valid then st
        else
          let normalized := st.currentGuess.map Char.toUpper
          let states := evaluateGuess normalized jaw
          let updated := st.katlaGuesses ++ [⟨normalized, states⟩]
          let st1 : KatlaState :=
            { st with
              katlaGuesses := updated
              entryAttempts := fun n => if n == ae.no then updated else st.entryAttempts n
              currentGuess := [] }
          if states.all (fun s => s == KTile.correct) then
            let g := handleMarkSolved dp tpl ⟨st1.board, st1.solved, st1.failed⟩ ae
            { st1 with board := g.board, solved := g.solved, failed := g.failed }
          else if maxAttempts ≤ updated.length then
            { st1 with failed := fun n => if n == ae.no then true else st1.failed n }
          else st1
  | _, _ => st

/-- JS `String.prototype.trim` whitespace test (ASCII part; the embedded
words contain no exotic whitespace). -/
def isJsSpace (c : Char) : Bool :=
  c = ' ' || c = '\t' || c = '\n' || c = '\r' || c = '\x0b' || c = '\x0c'

/-- JS `word.trim()`. -/
def jsTrim (l : List Char) : List Char :=
  ((l.dropWhile isJsSpace).reverse.dropWhile isJsSpace).reverse

/-- One entry of a backend puzzle template's `answers` array (only `word`
is read by the check handler). -/
structure BEAnswer where
  word : List Char
deriving DecidableEq, Repr

/-- A backend `PuzzleTemplate` as read by the check handler. -/
structure BEPuzzleTemplate where
  answers : List BEAnswer
deriving DecidableEq, Repr

/-- The in-memory KBBI bank: `Map<number, Set<string>>`; `bank n` is the
bucket keyed `n` (`none` when `kbbiBank.get(...)` is `undefined`), a
bucket being a list of normalized words. -/
abbrev KbbiBank := Nat → Option (List (List Char))

/-- The result of the JS `Number(String(templateId))` conversion: `none`
models `NaN`, `some q` a finite value (every finite JS number is a
rational).  `Infinity` and `-Infinity` are not distinguished: in the
handler's guards each behaves exactly like a representable out-of-range or
negative value, so no behaviour of the source is lost. -/
abbrev TemplateIdParse := Option ℚ

/-- `loadPuzzleTemplateById` from `backend/src/index.ts` lines 64-75,
including its exception path as observed by the calling route's
`try/catch`.  `NaN`, a negative or an out-of-range index return `null`
(`Except.ok none`); an in-range integer index loads the template parsed
from the file at that index of the sorted puzzle-file list; an in-range
non-integer index (e.g. `0.5`) makes `files[index]` `undefined`, so
`path.join(PUBLIC_DIR, undefined)` throws a `TypeError`
(`Except.error ()`), which the route surfaces as HTTP 500. -/
def loadPuzzleTemplateById (files : List BEPuzzleTemplate) (idx : TemplateIdParse) :
    Except Unit (Option BEPuzzleTemplate) :=
  match idx with
  | none => Except.ok none
  | some q =>
    if q < 0 ∨ (files.length : ℚ) ≤ q then Except.ok none
    else if q.den = 1 then Except.ok files[q.num.toNat]?
    else Except.error ()

/-- `valid` as computed by the check handler: membership of the normalized
guess in the bucket keyed by the guess's own length, `false` when that
bucket is absent. -/
def wordValid (bank : KbbiBank) (guess : List Char) : Bool :=
  match bank guess.length with
  | some bucket => bucket.contains guess
  | none => false

/-- The request body of `POST /api/katla/check`: `word` (`none` for a
missing or non-string field), `templateId` (outer `none` when the field is
missing; the inner `TemplateIdParse` is its `Number(String(...))` parse),
and `slotNo` (`none` for a missing, non-number or non-integer field). -/
structure KatlaCheckPayload where
  word : Option (List Char)
  templateId : Option TemplateIdParse
  slotNo : Option Int
deriving DecidableEq, Repr

/-- The handler's observable outcome: HTTP 400, HTTP 500 (an exception
reaching the route's `catch`), or HTTP 200 with the `{ valid, correct }`
body. -/
inductive CheckResponse where
  | badRequest
  | serverError
  | ok (valid : Bool) (correct : Bool)
deriving DecidableEq, Repr

/-- The `correct` computation of the check handler on the loaded template
(`false` when the template or its `answers[slotNo - 1]` entry is
missing, or its `word` differs from the guess). -/
def answerMatches (tplOpt : Option BEPuzzleTemplate) (sn : Int) (guess : List Char) :
    Bool :=
  match tplOpt with
  | some tpl =>
    match tpl.answers[(sn - 1).toNat]? with
    | some ans => guess == (jsTrim ans.word).map Char.toUpper
    | none => false
  | none => false

/-- The `POST /api/katla/check` handler from `backend/src/index.ts` lines
176-212, given the loaded KBBI bank and puzzle-file list.  Field checks in
source order (blank word; non-positive-integer `slotNo`; missing
`templateId`); then `valid` from the length bucket and `correct` by
comparison with `answers[slotNo - 1].word`.  A throw inside
`loadPuzzleTemplateById` is caught by the route and becomes HTTP 500. -/
def katlaCheck (bank : KbbiBank) (files : List BEPuzzleTemplate)
    (p : KatlaCheckPayload) : CheckResponse :=
  match p.word with
  | none => CheckResponse.badRequest
  | some w =>
    if jsTrim w = [] then CheckResponse.badRequest
    else
      match p.slotNo with
      | none => CheckResponse.badRequest
      | some sn =>
        if sn < 1 then CheckResponse.badRequest
        else
          match p.templateId with
          | none => CheckResponse.badRequest
          | some tid =>
            let guess := (jsTrim w).map Char.toUpper
            let valid := wordValid bank guess
            match loadPuzzleTemplateById files tid with
            | Except.error _ => CheckResponse.serverError
            | Except.ok tplOpt =>
              CheckResponse.ok valid (answerMatches tplOpt sn guess)

/-! ### Structural reformulations of the two evaluators

The index-and-mutate loops above are proved equal to structurally
recursive forms, on which the claimed properties are established by list
induction. -/

/-- Closed form of pass 1 of `MainScene.evaluateGuess` (the `result` array
after the first loop): recurse over guess and target in parallel. -/
def firstPass : List Char → List Char → List KTile
  | _ :: _, [] => []
  | [], t => List.replicate t.length KTile.absent
  | a :: as, b :: bs => (if b = a then KTile.correct else KTile.absent) :: firstPass as bs

/-- Closed form of the `remaining` multiset after pass 1 of
`MainScene.evaluateGuess`. -/
def remAfter : List Char → List Char → List (Option Char)
  | _ :: _, [] => []
  | [], t => t.map some
  | a :: as, b :: bs => (if b = a then none else some b) :: remAfter as bs

/-- Closed form of pass 2 of `MainScene.evaluateGuess`. -/
def secondPass : List Char → List KTile → List (Option Char) → List KTile
  | [], res, _ => res
  | c :: gs, [], rem =>
    match jsFindIndex (· == some c) rem with
    | some j => KTile.present :: secondPass gs [] (rem.set j none)
    | none => KTile.absent :: secondPass gs [] rem
  | c :: gs, r :: res, rem =>
    if r = KTile.correct then r :: secondPass gs res rem
    else
      match jsFindIndex (· == some c) rem with
      | some j => KTile.present :: secondPass gs res (rem.set j none)
      | none => KTile.absent :: secondPass gs res rem

theorem pass1_nil_target (gs : List Char) :
    ∀ (i : Nat) (res : List KTile) (rem : List (Option Char)),
      pass1 [] gs i res rem = (res, rem) := by
  induction gs with
  | nil => intro i res rem; rfl
  | cons c gs ih =>
    intro i res rem
    simp only [pass1, List.getElem?_nil]
    exact ih (i + 1) res rem

theorem pass1_cons_shift (tc : Char) (t : List Char) (gs : List Char) :
    ∀ (i : Nat) (r0 : KTile) (res : List KTile) (m0 : Option Char)
      (rem : List (Option Char)),
      pass1 (tc :: t) gs (i + 1) (r0 :: res) (m0 :: rem) =
        ((pass1 t gs i res rem).1.cons r0, (pass1 t gs i res rem).2.cons m0) := by
  induction gs with
  | nil => intro i r0 res m0 rem; rfl
  | cons c gs ih =>
    intro i r0 res m0 rem
    simp only [pass1, List.getElem?_cons_succ, List.set_cons_succ]
    split
    · exact ih (i + 1) r0 (res.set i KTile.correct) m0 (rem.set i none)
    · exact ih (i + 1) r0 res m0 rem

theorem pass1_canonical (g : List Char) :
    ∀ t : List Char,
      pass1 t g 0 (List.replicate t.length KTile.absent) (t.map some) =
        (firstPass g t, remAfter g t) := by
  induction g with
  | nil =>
    intro t
    simp [pass1, firstPass, remAfter]
  | cons a as ih =>
    intro t
    cases t with
    | nil =>
      simp only [List.length_nil, List.replicate, List.map_nil, firstPass, remAfter]
      exact pass1_nil_target (a :: as) 0 [] []
    | cons b bs =>
      simp only [List.length_cons, List.replicate, List.map_cons, pass1,
        List.getElem?_cons_zero, firstPass, remAfter]
      by_cases hba : b = a
      · simp only [hba, if_pos rfl, if_true]
        simp only [List.set_cons_zero]
        rw [pass1_cons_shift, ih bs]
      · simp only [Option.some.injEq, hba, if_false, if_neg hba]
        rw [pass1_cons_shift, ih bs]

theorem jsSetTile_cons (r0 : KTile) (res : List KTile) (i : Nat) (v : KTile) :
    jsSetTile (r0 :: res) (i + 1) v = r0 :: jsSetTile res i v := by
  simp only [jsSetTile, List.length_cons, Nat.add_lt_add_iff_right, List.set_cons_succ]
  split
  · rfl
  · rfl

theorem pass2_cons_shift (gs : List Char) :
    ∀ (i : Nat) (r0 : KTile) (res : List KTile) (rem : List (Option Char)),
      pass2 gs (i + 1) (r0 :: res) rem = r0 :: pass2 gs i res rem := by
  induction gs with
  | nil => intro i r0 res rem; rfl
  | cons c gs ih =>
    intro i r0 res rem
    simp only [pass2, List.getElem?_cons_succ]
    split
    · exact ih (i + 1) r0 res rem
    · cases h : jsFindIndex (· == some c) rem with
      | some j =>
        simp only [jsSetTile_cons]
        exact ih (i + 1) r0 (jsSetTile res i KTile.present) (rem.set j none)
      | none =>
        simp only [jsSetTile_cons]
        exact ih (i + 1) r0 (jsSetTile res i KTile.absent) rem

theorem jsSetTile_zero_cons (r : KTile) (res : List KTile) (v : KTile) :
    jsSetTile (r :: res) 0 v = v :: res := by
  simp [jsSetTile]

theorem jsSetTile_zero_nil (v : KTile) : jsSetTile [] 0 v = [v] := by
  simp [jsSetTile]

theorem pass2_canonical (gs : List Char) :
    ∀ (res : List KTile) (rem : List (Option Char)),
      pass2 gs 0 res rem = secondPass gs res rem := by
  induction gs with
  | nil => intro res rem; rfl
  | cons c gs ih =>
    intro res rem
    cases res with
    | nil =>
      cases h : jsFindIndex (· == some c) rem with
      | some j =>
        simp only [pass2, List.getElem?_nil, secondPass, h, reduceCtorEq, if_false,
          jsSetTile_zero_nil]
        rw [pass2_cons_shift, ih]
      | none =>
        simp only [pass2, List.getElem?_nil, secondPass, h, reduceCtorEq, if_false,
          jsSetTile_zero_nil]
        rw [pass2_cons_shift, ih]
    | cons r res =>
      by_cases hr : r = KTile.correct
      · subst hr
        simp only [pass2, secondPass, List.getElem?_cons_zero, eq_self_iff_true, if_true]
        rw [pass2_cons_shift, ih]
      · cases h : jsFindIndex (· == some c) rem with
        | some j =>
          simp only [pass2, secondPass, List.getElem?_cons_zero, Option.some.injEq,
            h, if_neg hr, jsSetTile_zero_cons]
          rw [pass2_cons_shift, ih]
        | none =>
          simp only [pass2, secondPass, List.getElem?_cons_zero, Option.some.injEq,
            h, if_neg hr, jsSetTile_zero_cons]
          rw [pass2_cons_shift, ih]

theorem evaluateGuess_canonical (g t : List Char) :
    evaluateGuess g t = secondPass g (firstPass g t) (remAfter g t) := by
  simp only [evaluateGuess]
  rw [pass1_canonical g t, pass2_canonical]

/-- Closed form of pass 1 of the `part_000` evaluator (the `statuses` array
after the first loop): recurse over the answer, consuming the guess. -/
def firstPassB : List Char → List Char → List KTile
  | _, [] => []
  | g, b :: bs =>
    (if g.head? = some b then KTile.correct else KTile.absent) :: firstPassB g.tail bs

/-- Closed form of the `answerChars` array after pass 1 of the `part_000`
evaluator. -/
def remAfterB : List Char → List Char → List (Option Char)
  | _, [] => []
  | g, b :: bs => (if g.head? = some b then none else some b) :: remAfterB g.tail bs

/-- Closed form of pass 2 of the `part_000` evaluator. -/
def secondPassB : List Char → List Char → List KTile → List (Option Char) → List KTile
  | _, [], sts, _ => sts
  | _, _ :: _, [], _ => []
  | g, _ :: rest, s :: sts, ac =>
    if s = KTile.correct then s :: secondPassB g.tail rest sts ac
    else
      match g.head? with
      | some c =>
        match jsFindIndex (· == some c) ac with
        | some j => KTile.present :: secondPassB g.tail rest sts (ac.set j none)
        | none => s :: secondPassB g.tail rest sts ac
      | none => s :: secondPassB g.tail rest sts ac

theorem getElem?_succ_tail (g : List Char) (i : Nat) : g[i + 1]? = g.tail[i]? := by
  cases g with
  | nil => rfl
  | cons x xs => simp

theorem head?_eq_getElem?_zero (g : List Char) : g.head? = g[0]? := by
  cases g with
  | nil => rfl
  | cons x xs => simp

theorem pass1b_cons_shift (g : List Char) (rest : List Char) :
    ∀ (i : Nat) (s0 : KTile) (sts : List KTile) (a0 : Option Char)
      (ac : List (Option Char)),
      pass1b g rest (i + 1) (s0 :: sts) (a0 :: ac) =
        ((pass1b g.tail rest i sts ac).1.cons s0, (pass1b g.tail rest i sts ac).2.cons a0) := by
  induction rest generalizing g with
  | nil => intro i s0 sts a0 ac; rfl
  | cons b bs ih =>
    intro i s0 sts a0 ac
    simp only [pass1b, getElem?_succ_tail, List.set_cons_succ]
    split
    · exact ih g (i + 1) s0 (sts.set i KTile.correct) a0 (ac.set i none)
    · exact ih g (i + 1) s0 sts a0 ac

theorem pass1b_canonical (t : List Char) :
    ∀ g : List Char,
      pass1b g t 0 (List.replicate t.length KTile.absent) (t.map some) =
        (firstPassB g t, remAfterB g t) := by
  induction t with
  | nil => intro g; rfl
  | cons b bs ih =>
    intro g
    simp only [List.length_cons, List.replicate, List.map_cons, pass1b,
      firstPassB, remAfterB, ← head?_eq_getElem?_zero]
    by_cases hg : g.head? = some b
    · simp only [hg, if_pos rfl, if_true, List.set_cons_zero]
      rw [pass1b_cons_shift, ih g.tail]
    · simp only [hg, if_false, if_neg hg]
      rw [pass1b_cons_shift, ih g.tail]

theorem pass2b_nil_sts (g : List Char) (rest : List Char) :
    ∀ (i : Nat) (ac : List (Option Char)), pass2b g rest i [] ac = [] := by
  induction rest generalizing g with
  | nil => intro i ac; rfl
  | cons b bs ih =>
    intro i ac
    cases hgi : g[i]? with
    | some c =>
      cases h : jsFindIndex (· == some c) ac with
      | some j =>
        simp only [pass2b, List.getElem?_nil, reduceCtorEq, if_false, hgi, h, List.set_nil]
        exact ih g (i + 1) (ac.set j none)
      | none =>
        simp only [pass2b, List.getElem?_nil, reduceCtorEq, if_false, hgi, h]
        exact ih g (i + 1) ac
    | none =>
      simp only [pass2b, List.getElem?_nil, reduceCtorEq, if_false, hgi]
      exact ih g (i + 1) ac

theorem pass2b_cons_shift (g : List Char) (rest : List Char) :
    ∀ (i : Nat) (s0 : KTile) (sts : List KTile) (ac : List (Option Char)),
      pass2b g rest (i + 1) (s0 :: sts) ac = s0 :: pass2b g.tail rest i sts ac := by
  induction rest generalizing g with
  | nil => intro i s0 sts ac; rfl
  | cons b bs ih =>
    intro i s0 sts ac
    cases hgi : g.tail[i]? with
    | some c =>
      cases h : jsFindIndex (· == some c) ac with
      | some j =>
        simp only [pass2b, List.getElem?_cons_succ, getElem?_succ_tail, List.set_cons_succ,
          hgi, h]
        split
        · exact ih g (i + 1) s0 sts ac
        · exact ih g (i + 1) s0 (sts.set i KTile.present) (ac.set j none)
      | none =>
        simp only [pass2b, List.getElem?_cons_succ, getElem?_succ_tail, List.set_cons_succ,
          hgi, h]
        split
        · exact ih g (i + 1) s0 sts ac
        · exact ih g (i + 1) s0 sts ac
    | none =>
      simp only [pass2b, List.getElem?_cons_succ, getElem?_succ_tail, List.set_cons_succ, hgi]
      split
      · exact ih g (i + 1) s0 sts ac
      · exact ih g (i + 1) s0 sts ac

theorem pass2b_canonical (rest : List Char) :
    ∀ (g : List Char) (sts : List KTile) (ac : List (Option Char)),
      pass2b g rest 0 sts ac = secondPassB g rest sts ac := by
  induction rest with
  | nil => intro g sts ac; rfl
  | cons b bs ih =>
    intro g sts ac
    cases sts with
    | nil =>
      have h0 : pass2b g (b :: bs) 0 [] ac = [] := pass2b_nil_sts g (b :: bs) 0 ac
      simp only [h0, secondPassB]
    | cons s sts =>
      by_cases hs : s = KTile.correct
      · subst hs
        simp only [pass2b, secondPassB, List.getElem?_cons_zero, eq_self_iff_true, if_true]
        rw [pass2b_cons_shift, ih]
      · cases hg : g[0]? with
        | some c =>
          cases h : jsFindIndex (· == some c) ac with
          | some j =>
            simp only [pass2b, secondPassB, List.getElem?_cons_zero, Option.some.injEq,
              if_neg hs, hg, head?_eq_getElem?_zero, h, List.set_cons_zero]
            rw [pass2b_cons_shift, ih]
          | none =>
            simp only [pass2b, secondPassB, List.getElem?_cons_zero, Option.some.injEq,
              if_neg hs, hg, head?_eq_getElem?_zero, h]
            rw [pass2b_cons_shift, ih]
        | none =>
          simp only [pass2b, secondPassB, List.getElem?_cons_zero, Option.some.injEq,
            if_neg hs, hg, head?_eq_getElem?_zero]
          rw [pass2b_cons_shift, ih]

theorem evaluateGuessP0_canonical (g t : List Char) :
    evaluateGuessP0 g t =
      secondPassB (g.map Char.toUpper) (t.map Char.toUpper)
        (firstPassB (g.map Char.toUpper) (t.map Char.toUpper))
        (remAfterB (g.map Char.toUpper) (t.map Char.toUpper)) := by
  simp only [evaluateGuessP0]
  rw [pass1b_canonical (t.map Char.toUpper) (g.map Char.toUpper), pass2b_canonical]

/-! ### Properties of the evaluators -/

/-- `true` for tiles counted as consuming a target letter. -/
def scored (k : KTile) : Bool := k == KTile.correct || k == KTile.present

/-- Number of guess positions holding character `c` whose tile is `correct`
or `present`. -/
def hitCount (g : List Char) (res : List KTile) (c : Char) : Nat :=
  (g.zip res).countP (fun p => p.1 == c && scored p.2)

theorem hitCount_nil_left (res : List KTile) (c : Char) : hitCount [] res c = 0 := by
  simp [hitCount]

theorem hitCount_nil_right (g : List Char) (c : Char) : hitCount g [] c = 0 := by
  simp [hitCount]

theorem hitCount_cons (g0 : Char) (gs : List Char) (r : KTile) (res : List KTile) (c : Char) :
    hitCount (g0 :: gs) (r :: res) c =
      hitCount gs res c + (if (g0 == c && scored r) = true then 1 else 0) := by
  simp [hitCount, List.countP_cons]

theorem secondPass_cons_correct (c : Char) (gs : List Char) (res : List KTile)
    (rem : List (Option Char)) :
    secondPass (c :: gs) (KTile.correct :: res) rem =
      KTile.correct :: secondPass gs res rem := by
  simp [secondPass]

theorem secondPass_cons_found {c : Char} {rem : List (Option Char)} {j : Nat}
    (h : jsFindIndex (· == some c) rem = some j) (gs : List Char) {r : KTile}
    (hr : r ≠ KTile.correct) (res : List KTile) :
    secondPass (c :: gs) (r :: res) rem =
      KTile.present :: secondPass gs res (rem.set j none) := by
  simp [secondPass, if_neg hr, h]

theorem secondPass_cons_notfound {c : Char} {rem : List (Option Char)}
    (h : jsFindIndex (· == some c) rem = none) (gs : List Char) {r : KTile}
    (hr : r ≠ KTile.correct) (res : List KTile) :
    secondPass (c :: gs) (r :: res) rem = KTile.absent :: secondPass gs res rem := by
  simp [secondPass, if_neg hr, h]

theorem secondPass_nilres_found {c : Char} {rem : List (Option Char)} {j : Nat}
    (h : jsFindIndex (· == some c) rem = some j) (gs : List Char) :
    secondPass (c :: gs) [] rem = KTile.present :: secondPass gs [] (rem.set j none) := by
  simp [secondPass, h]

theorem secondPass_nilres_notfound {c : Char} {rem : List (Option Char)}
    (h : jsFindIndex (· == some c) rem = none) (gs : List Char) :
    secondPass (c :: gs) [] rem = KTile.absent :: secondPass gs [] rem := by
  simp [secondPass, h]

theorem jsFindIndex_some {p : α → Bool} :
    ∀ {l : List α} {j : Nat}, jsFindIndex p l = some j →
      ∃ x, l[j]? = some x ∧ p x = true := by
  intro l
  induction l with
  | nil => intro j h; simp [jsFindIndex] at h
  | cons a l ih =>
    intro j h
    simp only [jsFindIndex] at h
    by_cases hp : p a
    · rw [if_pos hp] at h
      cases h
      exact ⟨a, by simp, hp⟩
    · rw [if_neg hp] at h
      cases hj : jsFindIndex p l with
      | none => rw [hj] at h; simp at h
      | some j0 =>
        rw [hj] at h
        have hj1 : j0 + 1 = j := by simpa using h
        subst hj1
        obtain ⟨x, hx, hpx⟩ := ih hj
        exact ⟨x, by simpa using hx, hpx⟩

theorem countP_set_add {p : α → Bool} :
    ∀ (l : List α) (j : Nat) (v x : α), l[j]? = some x →
      (l.set j v).countP p + (if p x then 1 else 0) =
        l.countP p + (if p v then 1 else 0) := by
  intro l
  induction l with
  | nil => intro j v x h; simp at h
  | cons a l ih =>
    intro j v x h
    cases j with
    | zero =>
      simp only [List.getElem?_cons_zero, Option.some.injEq] at h
      subst h
      simp only [List.set_cons_zero, List.countP_cons]
      omega
    | succ j =>
      simp only [List.getElem?_cons_succ] at h
      simp only [List.set_cons_succ, List.countP_cons]
      have := ih j v x h
      omega

theorem optBeq_none_some (c : Char) : ((none : Option Char) == some c) = false := rfl

theorem optBeq_some_some (a c : Char) : ((some a : Option Char) == some c) = (a == c) := rfl

theorem secondPass_hitCount_le : ∀ (gs : List Char) (res : List KTile)
    (rem : List (Option Char)) (c : Char),
    hitCount gs (secondPass gs res rem) c ≤
      hitCount gs res c + rem.countP (fun o => o == some c) := by
  intro gs
  induction gs with
  | nil => intro res rem c; simp [hitCount, secondPass]
  | cons g0 gs ih =>
    intro res rem c
    have hpres : scored KTile.present = true := rfl
    have habs : scored KTile.absent = false := rfl
    cases res with
    | nil =>
      cases h : jsFindIndex (· == some g0) rem with
      | some j =>
        obtain ⟨x, hx, hpx⟩ := jsFindIndex_some h
        have hxv : x = some g0 := by simpa using hpx
        subst hxv
        rw [secondPass_nilres_found h, hitCount_cons, hitCount_nil_right]
        have hcnt := countP_set_add (p := fun o => o == some c) rem j none _ hx
        have hle := ih [] (rem.set j none) c
        rw [hitCount_nil_right] at hle
        simp only [optBeq_some_some, optBeq_none_some] at hcnt
        rcases Bool.eq_false_or_eq_true (g0 == c) with hgc | hgc <;>
          simp only [hgc, hpres, Bool.and_true, if_true, if_false,
            Bool.false_eq_true] at hcnt ⊢ <;> omega
      | none =>
        rw [secondPass_nilres_notfound h, hitCount_cons, hitCount_nil_right]
        have hle := ih [] rem c
        rw [hitCount_nil_right] at hle
        simp only [habs, Bool.and_false, Bool.false_eq_true, if_false]
        omega
    | cons r res =>
      by_cases hr : r = KTile.correct
      · subst hr
        rw [secondPass_cons_correct, hitCount_cons, hitCount_cons]
        have hle := ih res rem c
        omega
      · cases h : jsFindIndex (· == some g0) rem with
        | some j =>
          obtain ⟨x, hx, hpx⟩ := jsFindIndex_some h
          have hxv : x = some g0 := by simpa using hpx
          subst hxv
          rw [secondPass_cons_found h gs hr, hitCount_cons, hitCount_cons]
          have hcnt := countP_set_add (p := fun o => o == some c) rem j none _ hx
          have hle := ih res (rem.set j none) c
          simp only [optBeq_some_some, optBeq_none_some] at hcnt
          rcases Bool.eq_false_or_eq_true (g0 == c) with hgc | hgc <;>
            simp only [hgc, hpres, Bool.and_true, Bool.false_and, Bool.true_and, if_true,
              if_false, Bool.false_eq_true] at hcnt ⊢ <;> omega
        | none =>
          rw [secondPass_cons_notfound h gs hr, hitCount_cons, hitCount_cons]
          have hle := ih res rem c
          simp only [habs, Bool.and_false, Bool.false_eq_true, if_false]
          omega

theorem firstPass_remAfter_count :
    ∀ (g t : List Char) (c : Char), g.length = t.length →
      hitCount g (firstPass g t) c +
          (remAfter g t).countP (fun o => o == some c) = t.count c := by
  intro g
  induction g with
  | nil =>
    intro t c h
    cases t with
    | nil => simp [hitCount, firstPass, remAfter]
    | cons b bs => simp at h
  | cons a as ih =>
    intro t c h
    cases t with
    | nil => simp at h
    | cons b bs =>
      have hlen : as.length = bs.length := by simpa using h
      have hcor : scored KTile.correct = true := rfl
      have habs : scored KTile.absent = false := rfl
      by_cases hba : b = a
      · subst hba
        simp only [firstPass, remAfter, eq_self_iff_true, if_true, hitCount_cons,
          List.countP_cons, optBeq_none_some, Bool.false_eq_true, if_false, List.count_cons]
        have hrec := ih bs c hlen
        rcases Bool.eq_false_or_eq_true (b == c) with hbc | hbc <;>
          simp only [hbc, hcor, Bool.and_true, if_true, if_false, Bool.false_eq_true] <;>
          omega
      · have hba2 : (b = a) = False := by simp [hba]
        simp only [firstPass, remAfter, hba2, if_false, hitCount_cons, List.countP_cons,
          optBeq_some_some, List.count_cons]
        have hrec := ih bs c hlen
        simp only [habs, Bool.and_false, Bool.false_eq_true, if_false]
        rcases Bool.eq_false_or_eq_true (b == c) with hbc | hbc <;>
          simp only [hbc, if_true, if_false, Bool.false_eq_true] <;> omega

theorem firstPass_correct_iff :
    ∀ (g t : List Char) (j : Nat) (c : Char), g[j]? = some c →
      ((firstPass g t)[j]? = some KTile.correct ↔ t[j]? = some c) := by
  intro g
  induction g with
  | nil => intro t j c hg; simp at hg
  | cons a as ih =>
    intro t j c hg
    cases t with
    | nil =>
      simp only [firstPass, List.getElem?_nil]
      constructor
      · intro hcon; simp at hcon
      · intro hcon; simp at hcon
    | cons b bs =>
      cases j with
      | zero =>
        simp only [List.getElem?_cons_zero, Option.some.injEq] at hg
        simp only [firstPass, List.getElem?_cons_zero, Option.some.injEq, ← hg]
        by_cases hba : b = a
        · simp [hba]
        · have hba2 : (b = a) = False := by simp [hba]
          simp only [hba2, if_false]
          constructor
          · intro hcon; simp at hcon
          · intro hcon; exact hcon.elim
      | succ j =>
        simp only [List.getElem?_cons_succ] at hg ⊢
        simp only [firstPass, List.getElem?_cons_succ]
        exact ih bs j c hg

theorem secondPass_correct_iff :
    ∀ (gs : List Char) (res : List KTile) (rem : List (Option Char)) (j : Nat),
      ((secondPass gs res rem)[j]? = some KTile.correct ↔ res[j]? = some KTile.correct) := by
  intro gs
  induction gs with
  | nil => intro res rem j; rfl
  | cons g0 gs ih =>
    intro res rem j
    cases res with
    | nil =>
      cases h : jsFindIndex (· == some g0) rem with
      | some j0 =>
        rw [secondPass_nilres_found h]
        cases j with
        | zero => simp
        | succ j => simpa using ih [] (rem.set j0 none) j
      | none =>
        rw [secondPass_nilres_notfound h]
        cases j with
        | zero => simp
        | succ j => simpa using ih [] rem j
    | cons r res =>
      by_cases hr : r = KTile.correct
      · subst hr
        rw [secondPass_cons_correct]
        cases j with
        | zero => simp
        | succ j => simpa using ih res rem j
      · cases h : jsFindIndex (· == some g0) rem with
        | some j0 =>
          rw [secondPass_cons_found h gs hr]
          cases j with
          | zero =>
            simp only [List.getElem?_cons_zero, Option.some.injEq]
            constructor
            · intro hcon; simp at hcon
            · intro hcon; exact absurd hcon hr
          | succ j => simpa using ih res (rem.set j0 none) j
        | none =>
          rw [secondPass_cons_notfound h gs hr]
          cases j with
          | zero =>
            simp only [List.getElem?_cons_zero, Option.some.injEq]
            constructor
            · intro hcon; simp at hcon
            · intro hcon; exact absurd hcon hr
          | succ j => simpa using ih res rem j

theorem secondPass_length : ∀ (gs : List Char) (res : List KTile)
    (rem : List (Option Char)),
    (secondPass gs res rem).length = max gs.length res.length := by
  intro gs
  induction gs with
  | nil => intro res rem; simp [secondPass]
  | cons g0 gs ih =>
    intro res rem
    cases res with
    | nil =>
      cases h : jsFindIndex (· == some g0) rem with
      | some j =>
        rw [secondPass_nilres_found h]
        simp [ih, Nat.succ_max_succ]
      | none =>
        rw [secondPass_nilres_notfound h]
        simp [ih, Nat.succ_max_succ]
    | cons r res =>
      by_cases hr : r = KTile.correct
      · subst hr
        rw [secondPass_cons_correct]
        simp [ih, Nat.succ_max_succ]
      · cases h : jsFindIndex (· == some g0) rem with
        | some j =>
          rw [secondPass_cons_found h gs hr]
          simp [ih, Nat.succ_max_succ]
        | none =>
          rw [secondPass_cons_notfound h gs hr]
          simp [ih, Nat.succ_max_succ]

theorem firstPass_length : ∀ (g t : List Char),
    (firstPass g t).length = t.length := by
  intro g
  induction g with
  | nil => intro t; simp [firstPass]
  | cons a as ih =>
    intro t
    cases t with
    | nil => rfl
    | cons b bs => simp [firstPass, ih]

theorem firstPassB_length : ∀ (t g : List Char),
    (firstPassB g t).length = t.length := by
  intro t
  induction t with
  | nil => intro g; rfl
  | cons b bs ih => intro g; simp [firstPassB, ih]

theorem secondPassB_length : ∀ (rest g : List Char) (sts : List KTile)
    (ac : List (Option Char)), sts.length = rest.length →
    (secondPassB g rest sts ac).length = sts.length := by
  intro rest
  induction rest with
  | nil => intro g sts ac _; rfl
  | cons b bs ih =>
    intro g sts ac hlen
    cases sts with
    | nil => simp at hlen
    | cons s sts =>
      have hlen2 : sts.length = bs.length := by simpa using hlen
      by_cases hs : s = KTile.correct
      · subst hs
        simp only [secondPassB, eq_self_iff_true, if_true, List.length_cons]
        rw [ih g.tail sts ac hlen2]
      · cases hg : g.head? with
        | some c =>
          cases h : jsFindIndex (· == some c) ac with
          | some j =>
            simp only [secondPassB, if_neg hs, hg, h, List.length_cons]
            rw [ih g.tail sts (ac.set j none) hlen2]
          | none =>
            simp only [secondPassB, if_neg hs, hg, h, List.length_cons]
            rw [ih g.tail sts ac hlen2]
        | none =>
          simp only [secondPassB, if_neg hs, hg, List.length_cons]
          rw [ih g.tail sts ac hlen2]

theorem firstPassB_absent : ∀ (t g : List Char) (j : Nat),
    g.length ≤ j → j < t.length → (firstPassB g t)[j]? = some KTile.absent := by
  intro t
  induction t with
  | nil => intro g j _ hj; simp at hj
  | cons b bs ih =>
    intro g j hg hj
    cases j with
    | zero =>
      have hgnil : g = [] := List.length_eq_zero.mp (Nat.le_zero.mp hg)
      subst hgnil
      simp [firstPassB]
    | succ j =>
      have hgt : g.tail.length ≤ j := by
        cases g with
        | nil => simp
        | cons x xs => simpa using hg
      have hjt : j < bs.length := by simpa using hj
      simp only [firstPassB, List.getElem?_cons_succ]
      exact ih g.tail j hgt hjt

theorem secondPassB_keep : ∀ (rest g : List Char) (sts : List KTile)
    (ac : List (Option Char)) (j : Nat), g.length ≤ j →
    (secondPassB g rest sts ac)[j]? = sts[j]? := by
  intro rest
  induction rest with
  | nil => intro g sts ac j _; rfl
  | cons b bs ih =>
    intro g sts ac j hg
    cases sts with
    | nil =>
      cases g with
      | nil => rfl
      | cons x xs => simp [secondPassB]
    | cons s sts =>
      cases j with
      | zero =>
        have hgnil : g = [] := List.length_eq_zero.mp (Nat.le_zero.mp hg)
        subst hgnil
        by_cases hs : s = KTile.correct
        · subst hs; simp [secondPassB]
        · simp [secondPassB, if_neg hs]
      | succ j =>
        have hgt : g.tail.length ≤ j := by
          cases g with
          | nil => simp
          | cons x xs => simpa using hg
        by_cases hs : s = KTile.correct
        · subst hs
          simp only [secondPassB, eq_self_iff_true, if_true, List.getElem?_cons_succ]
          exact ih g.tail sts ac j hgt
        · cases hgh : g.head? with
          | some c =>
            cases h : jsFindIndex (· == some c) ac with
            | some j0 =>
              simp only [secondPassB, if_neg hs, hgh, h, List.getElem?_cons_succ]
              exact ih g.tail sts (ac.set j0 none) j hgt
            | none =>
              simp only [secondPassB, if_neg hs, hgh, h, List.getElem?_cons_succ]
              exact ih g.tail sts ac j hgt
          | none =>
            simp only [secondPassB, if_neg hs, hgh, List.getElem?_cons_succ]
            exact ih g.tail sts ac j hgt

/-! ### Claim theorems for the evaluators -/

/-- C1 (counterexample): the claim that evaluating guess `AABBI` against
target `ABADI` yields `[correct, absent, absent, absent, correct]` is false
for both embedded evaluators: the target `ABADI` still holds an unmatched
`A` (position 2) and a `B` (position 1) after pass 1, so positions 1 and 2
of the guess score `present`. -/
theorem evaluateGuess_duplicates_claim_false :
    ¬ (evaluateGuess "AABBI".toList "ABADI".toList =
        [KTile.correct, KTile.absent, KTile.absent, KTile.absent, KTile.correct]) ∧
    ¬ (evaluateGuessP0 "AABBI".toList "ABADI".toList =
        [KTile.correct, KTile.absent, KTile.absent, KTile.absent, KTile.correct]) := by
  decide

/-- C1 (amended): evaluating guess `AABBI` against target `ABADI` with
either two-pass evaluator yields `[correct, present, present, absent,
correct]`: position 0's `A` scores `correct`; position 1's `A` scores
`present` because the target's second `A` (position 2) is still unmatched;
position 2's `B` scores `present` (target position 1); position 3's second
`B` scores `absent` as no `B` remains. -/
theorem evaluateGuess_duplicates_actual :
    evaluateGuess "AABBI".toList "ABADI".toList =
      [KTile.correct, KTile.present, KTile.present, KTile.absent, KTile.correct] ∧
    evaluateGuessP0 "AABBI".toList "ABADI".toList =
      [KTile.correct, KTile.present, KTile.present, KTile.absent, KTile.correct] := by
  decide

/-- C2: for guesses and targets of equal length, `evaluateGuess` marks
position `i` `correct` iff the guess and target agree there, and for every
character the number of guess positions holding it that are marked
`correct` or `present` never exceeds its occurrence count in the target. -/
theorem evaluateGuess_spec (g t : List Char) (h : g.length = t.length) :
    (∀ (i : Nat) (c : Char), g[i]? = some c →
      ((evaluateGuess g t)[i]? = some KTile.correct ↔ t[i]? = some c))
    ∧ ∀ c : Char, hitCount g (evaluateGuess g t) c ≤ t.count c := by
  constructor
  · intro i c hgi
    rw [evaluateGuess_canonical, secondPass_correct_iff]
    exact firstPass_correct_iff g t i c hgi
  · intro c
    rw [evaluateGuess_canonical]
    have h1 := secondPass_hitCount_le g (firstPass g t) (remAfter g t) c
    have h2 := firstPass_remAfter_count g t c h
    omega

/-- C2 witness: the spec's own example `ROMAN` vs `RUMAH`. -/
theorem evaluateGuess_spec_witness :
    ((evaluateGuess "ROMAN".toList "RUMAH".toList)[0]? = some KTile.correct ↔
      ("RUMAH".toList)[0]? = some 'R')
    ∧ hitCount "ROMAN".toList (evaluateGuess "ROMAN".toList "RUMAH".toList) 'A' ≤
        "RUMAH".toList.count 'A' :=
  ⟨(evaluateGuess_spec "ROMAN".toList "RUMAH".toList (by decide)).1 0 'R' (by decide),
   (evaluateGuess_spec "ROMAN".toList "RUMAH".toList (by decide)).2 'A'⟩

/-- C9: both evaluators are total on all pairs of strings.  The
`MainScene` variant returns `max (len guess) (len target)` entries (pass 2
extends the result array one slot at a time past the target's length); the
`part_000` variant always returns exactly `len answer` entries, and every
position at or beyond `len guess` keeps its initial `absent`. -/
theorem evaluateGuess_total_lengths (g t : List Char) :
    (evaluateGuess g t).length = max g.length t.length
    ∧ (evaluateGuessP0 g t).length = t.length
    ∧ ∀ j : Nat, g.length ≤ j → j < t.length →
        (evaluateGuessP0 g t)[j]? = some KTile.absent := by
  refine ⟨?_, ?_, ?_⟩
  · rw [evaluateGuess_canonical, secondPass_length, firstPass_length]
  · have hfl := firstPassB_length (t.map Char.toUpper) (g.map Char.toUpper)
    rw [evaluateGuessP0_canonical,
      secondPassB_length (t.map Char.toUpper) (g.map Char.toUpper) _ _ hfl, hfl,
      List.length_map]
  · intro j hg hj
    rw [evaluateGuessP0_canonical,
      secondPassB_keep (t.map Char.toUpper) (g.map Char.toUpper) _ _ j
        (by simpa using hg)]
    exact firstPassB_absent (t.map Char.toUpper) (g.map Char.toUpper) j
      (by simpa using hg) (by simpa using hj)

/-- C9 witness: a 2-letter guess against a 4-letter target. -/
theorem evaluateGuess_total_lengths_witness :
    (evaluateGuess "AB".toList "ABCD".toList).length =
        max "AB".toList.length "ABCD".toList.length
    ∧ (evaluateGuessP0 "AB".toList "ABCD".toList).length = "ABCD".toList.length
    ∧ (evaluateGuessP0 "AB".toList "ABCD".toList)[3]? = some KTile.absent :=
  ⟨(evaluateGuess_total_lengths "AB".toList "ABCD".toList).1,
   (evaluateGuess_total_lengths "AB".toList "ABCD".toList).2.1,
   (evaluateGuess_total_lengths "AB".toList "ABCD".toList).2.2 3 (by decide) (by decide)⟩

/-! ### Claim theorems for `submitGuess` error paths -/

/-- C5: a submission whose normalized word the dictionary lookup reports
invalid (`validation.valid = false`) is rejected with no state change at
all: in particular the slot's attempt sequence, solved flag and failed flag
are untouched and the rejected guess is never appended. -/
theorem submitGuess_invalidWord (dp : DailyPuzzle) (tpl : TTSTemplate) (st : KatlaState)
    (ae : JawabanHarianEntry) (aeLen : Option Nat) (c : Bool) :
    submitGuess dp tpl st ae aeLen (ValidationResult.response false c) = st := by
  unfold submitGuess
  cases ae.jawaban with
  | none => rfl
  | some jaw =>
    cases aeLen with
    | none => rfl
    | some len =>
      simp only
      split
      · rfl
      · split
        · rfl
        · split
          · rfl
          · rfl

/-- C6: a transport-level validation failure (network error or non-OK
status) leaves the entire puzzle state — attempts, solved flag, failed
flag, and shared letter grid — exactly as before the submission. -/
theorem submitGuess_transportError (dp : DailyPuzzle) (tpl : TTSTemplate) (st : KatlaState)
    (ae : JawabanHarianEntry) (aeLen : Option Nat) :
    submitGuess dp tpl st ae aeLen ValidationResult.transportError = st := by
  unfold submitGuess
  cases ae.jawaban with
  | none => rfl
  | some jaw =>
    cases aeLen with
    | none => rfl
    | some len =>
      simp only
      split
      · rfl
      · split
        · rfl
        · split
          · rfl
          · rfl

/-- C4: recording a sixth valid-word attempt that is not fully correct sets
the slot's failed flag (and the attempt sequence holds six entries), and
any submission for a slot that already has `maxAttempts` recorded attempts
is rejected as terminal: it records nothing and changes no state. -/
theorem submitGuess_attempt_budget (dp : DailyPuzzle) (tpl : TTSTemplate)
    (st : KatlaState) (ae : JawabanHarianEntry) (jaw : List Char) (len : Nat) (cv : Bool)
    (hjaw : ae.jawaban = some jaw) (hjne : jaw ≠ []) (hlen : len ≠ 0)
    (h5 : st.katlaGuesses.length = 5) (hcur : st.currentGuess.length = len)
    (hnc : (evaluateGuess (st.currentGuess.map Char.toUpper) jaw).all
        (fun s => s == KTile.correct) = false) :
    (submitGuess dp tpl st ae (some len) (ValidationResult.response true cv)).failed ae.no =
        true
    ∧ (submitGuess dp tpl st ae (some len)
        (ValidationResult.response true cv)).katlaGuesses.length = 6
    ∧ ∀ (st2 : KatlaState) (ae2 : JawabanHarianEntry) (aeLen2 : Option Nat)
        (v2 : ValidationResult), maxAttempts ≤ st2.katlaGuesses.length →
        submitGuess dp tpl st2 ae2 aeLen2 v2 = st2 := by
  have hguard : ¬ (jaw = [] ∨ len = 0) := by
    rintro (h | h)
    · exact hjne h
    · exact hlen h
  have hatt : ¬ maxAttempts ≤ st.katlaGuesses.length := by
    rw [h5]; decide
  have hcur2 : ¬ st.currentGuess.length ≠ len := by
    intro h; exact h hcur
  refine ⟨?_, ?_, ?_⟩
  · simp only [submitGuess, hjaw, if_neg hguard, if_neg hatt, if_neg hcur2,
      Bool.not_true, Bool.false_eq_true, if_false, hnc]
    simp [h5, maxAttempts]
  · simp only [submitGuess, hjaw, if_neg hguard, if_neg hatt, if_neg hcur2,
      Bool.not_true, Bool.false_eq_true, if_false, hnc]
    simp [h5, maxAttempts]
  · intro st2 ae2 aeLen2 v2 h6
    unfold submitGuess
    cases ae2.jawaban with
    | none => rfl
    | some jaw2 =>
      cases aeLen2 with
      | none => rfl
      | some len2 =>
        simp only
        rw [if_pos h6, ite_self]

/-- A concrete five-attempt session used to witness the attempt budget. -/
def sampleEntry : JawabanHarianEntry :=
  { no := 1, jawaban := some "ABADI".toList, kbbi_valid := true, playable := true }

/-- A concrete `KatlaState` with five recorded attempts and a wrong sixth
guess pending. -/
def sampleState : KatlaState :=
  { board := []
    solved := fun _ => false
    failed := fun _ => false
    katlaGuesses := List.replicate 5 ⟨"AABBI".toList, []⟩
    entryAttempts := fun _ => []
    currentGuess := "AABBI".toList }

/-- C4 witness: the sixth wrong attempt on the sample session fails the
slot, and a seventh submission changes nothing. -/
theorem submitGuess_attempt_budget_witness :
    (submitGuess ⟨[]⟩ ⟨[]⟩ sampleState sampleEntry (some 5)
        (ValidationResult.response true false)).failed sampleEntry.no = true
    ∧ (submitGuess ⟨[]⟩ ⟨[]⟩ sampleState sampleEntry (some 5)
        (ValidationResult.response true false)).katlaGuesses.length = 6 :=
  ⟨(submitGuess_attempt_budget ⟨[]⟩ ⟨[]⟩ sampleState sampleEntry "ABADI".toList 5 false
      rfl (by decide) (by decide) (by decide) (by decide) (by decide)).1,
   (submitGuess_attempt_budget ⟨[]⟩ ⟨[]⟩ sampleState sampleEntry "ABADI".toList 5 false
      rfl (by decide) (by decide) (by decide) (by decide) (by decide)).2.1⟩

/-! ### Frame properties of the board writes -/

/-- Cell lookup at natural coordinates (`none` when out of bounds). -/
def cellAt (b : Board) (r c : Nat) : Option Cell :=
  (b[r]?).bind (fun row => row[c]?)

theorem setCell_frame (b : Board) (row col : Int) (v : Cell) (r c : Nat)
    (h : ¬(row = (r : Int) ∧ col = (c : Int))) :
    cellAt (setCell b row col v) r c = cellAt b r c := by
  simp only [setCell]
  split
  · rename_i h1
    split
    · rename_i h2
      by_cases hr : row.toNat = r
      · have hrow : row = (r : Int) := by omega
        have hcol : ¬ col = (c : Int) := fun hc => h ⟨hrow, hc⟩
        have hct : col.toNat ≠ c := by omega
        have hrlt : r < b.length := by omega
        have hget : b[r]? = some (b.getD row.toNat []) := by
          rw [List.getD_eq_getElem?_getD, hr, List.getElem?_eq_getElem hrlt]
          rfl
        subst hr
        simp only [cellAt, List.getElem?_set_self hrlt, hget]
        simp [List.getElem?_set_ne hct]
      · simp only [cellAt, List.getElem?_set_ne hr]
    · rfl
  · rfl

theorem setCell_shape (b : Board) (row col : Int) (v : Cell) :
    (setCell b row col v).length = b.length
    ∧ ∀ r : Nat, ((setCell b row col v)[r]?.map List.length) =
        (b[r]?.map List.length) := by
  simp only [setCell]
  split
  · rename_i h1
    split
    · rename_i h2
      constructor
      · simp
      · intro r
        by_cases hr : row.toNat = r
        · have hrlt : r < b.length := by omega
          have hget : b[r]? = some (b.getD row.toNat []) := by
            rw [List.getD_eq_getElem?_getD, hr, List.getElem?_eq_getElem hrlt]
            rfl
          subst hr
          rw [List.getElem?_set_self hrlt, hget]
          simp
        · simp [List.getElem?_set_ne hr]
    · exact ⟨rfl, fun _ => rfl⟩
  · exact ⟨rfl, fun _ => rfl⟩

theorem fillLoop_frame (slot : TTSSlot) :
    ∀ (cs : List Char) (b : Board) (i : Nat) (r c : Nat),
      (∀ k, k < cs.length → slotCoord slot (i + k) ≠ ((r : Int), (c : Int))) →
      cellAt (fillLoop slot b cs i) r c = cellAt b r c := by
  intro cs
  induction cs with
  | nil => intro b i r c _; rfl
  | cons ch cs ih =>
    intro b i r c hk
    have h0 : slotCoord slot i ≠ ((r : Int), (c : Int)) := by
      have := hk 0 (by simp)
      simpa using this
    have hrest : ∀ k, k < cs.length → slotCoord slot (i + 1 + k) ≠ ((r : Int), (c : Int)) := by
      intro k hk2
      have := hk (k + 1) (by simpa using Nat.succ_lt_succ hk2)
      rwa [show i + (k + 1) = i + 1 + k by omega] at this
    have hpair : ¬((slotCoord slot i).1 = (r : Int) ∧ (slotCoord slot i).2 = (c : Int)) := by
      intro hc
      exact h0 (Prod.ext hc.1 hc.2)
    simp only [fillLoop]
    rw [ih (setCell b (slotCoord slot i).1 (slotCoord slot i).2 [ch]) (i + 1) r c hrest,
      setCell_frame b (slotCoord slot i).1 (slotCoord slot i).2 [ch] r c hpair]

theorem fillLoop_shape (slot : TTSSlot) :
    ∀ (cs : List Char) (b : Board) (i : Nat),
      (fillLoop slot b cs i).length = b.length
      ∧ ∀ r : Nat, ((fillLoop slot b cs i)[r]?.map List.length) =
          (b[r]?.map List.length) := by
  intro cs
  induction cs with
  | nil => intro b i; exact ⟨rfl, fun _ => rfl⟩
  | cons ch cs ih =>
    intro b i
    simp only [fillLoop]
    obtain ⟨hl, hr⟩ := ih (setCell b (slotCoord slot i).1 (slotCoord slot i).2 [ch]) (i + 1)
    obtain ⟨hl2, hr2⟩ := setCell_shape b (slotCoord slot i).1 (slotCoord slot i).2 [ch]
    exact ⟨hl.trans hl2, fun r => (hr r).trans (hr2 r)⟩

/-- C8: `fillWordOnBoard` writes only at the in-bounds cells the slot
traverses (start plus direction times offset, one offset per answer
letter): every cell at other coordinates is unchanged, the board's shape is
preserved, and the board is returned entirely unchanged when no slot in the
template carries the requested number. -/
theorem fillWordOnBoard_frame (board : Board) (tpl : TTSTemplate) (wordNo : Nat)
    (answer : List Char) :
    (tpl.words.find? (fun w => w.no == wordNo) = none →
      fillWordOnBoard board tpl wordNo answer = board)
    ∧ (∀ slot, tpl.words.find? (fun w => w.no == wordNo) = some slot →
        ∀ r c : Nat, (∀ k, k < answer.length → slotCoord slot k ≠ ((r : Int), (c : Int))) →
          cellAt (fillWordOnBoard board tpl wordNo answer) r c = cellAt board r c)
    ∧ (fillWordOnBoard board tpl wordNo answer).length = board.length
    ∧ ∀ r : Nat, ((fillWordOnBoard board tpl wordNo answer)[r]?.map List.length) =
        (board[r]?.map List.length) := by
  refine ⟨?_, ?_, ?_, ?_⟩
  · intro hnone
    simp only [fillWordOnBoard, hnone]
  · intro slot hfind r c hk
    simp only [fillWordOnBoard, hfind]
    have := fillLoop_frame slot answer board 0 r c (by simpa using hk)
    simpa using this
  · cases hfind : tpl.words.find? (fun w => w.no == wordNo) with
    | none => simp only [fillWordOnBoard, hfind]
    | some slot =>
      simp only [fillWordOnBoard, hfind]
      exact (fillLoop_shape slot answer board 0).1
  · intro r
    cases hfind : tpl.words.find? (fun w => w.no == wordNo) with
    | none => simp only [fillWordOnBoard, hfind]
    | some slot =>
      simp only [fillWordOnBoard, hfind]
      exact (fillLoop_shape slot answer board 0).2 r

/-- A two-slot crossing template: slot 1 across at (0,0) with word `AB`,
slot 2 down at (0,1) with word `BC`; they share cell (0,1). -/
def crossTpl : TTSTemplate :=
  { words := [
      { no := 1, arah := Arah.mendatar, start := (0, 0), length := 2, word := ['A', 'B'] },
      { no := 2, arah := Arah.menurun, start := (0, 1), length := 2, word := ['B', 'C'] }] }

/-- The daily entries matching `crossTpl`. -/
def crossDp : DailyPuzzle :=
  { jawaban_harian := [
      { no := 1, jawaban := some ['A', 'B'], kbbi_valid := true, playable := true },
      { no := 2, jawaban := some ['B', 'C'], kbbi_valid := true, playable := true }] }

/-- A 2×2 board on which slot 2's lower cell already holds `C` (say from an
earlier solve of another slot), so that solving slot 1 completes slot 2 via
the shared cell alone. -/
def crossSt : GameState :=
  { board := [[[], []], [[], ['C']]], solved := fun _ => false, failed := fun _ => false }

/-- C8 witness: on the crossing template, filling an unknown slot number
returns the board unchanged, and filling slot 1 leaves cell (1,0) — not
traversed by slot 1 — unchanged. -/
theorem fillWordOnBoard_frame_witness :
    (fillWordOnBoard [[[], []], [[], []]] crossTpl 3 ['A', 'B'] = [[[], []], [[], []]])
    ∧ cellAt (fillWordOnBoard [[[], []], [[], []]] crossTpl 1 ['A', 'B']) 1 0 =
        cellAt [[[], []], [[], []]] 1 0 :=
  ⟨(fillWordOnBoard_frame [[[], []], [[], []]] crossTpl 3 ['A', 'B']).1 (by decide),
   (fillWordOnBoard_frame [[[], []], [[], []]] crossTpl 1 ['A', 'B']).2.1
     { no := 1, arah := Arah.mendatar, start := (0, 0), length := 2, word := ['A', 'B'] }
     (by decide) 1 0 (by decide)⟩

/-- C3: after `handleMarkSolved` marks the active slot solved and writes
its answer, the single auto-solve scan already yields a fixed point: in the
returned state no entry with a matching slot that is neither solved nor
failed has all its slot cells filled with letters joining to its answer
(first conjunct); and an entry whose slot word is completed on the updated
board via shared cells alone — with no direct guess on it — comes out
solved (second conjunct).  One scan suffices because an auto-solved slot
adds no new letters to the board. -/
theorem handleMarkSolved_fixedPoint (dp : DailyPuzzle) (tpl : TTSTemplate) (st : GameState)
    (ae : JawabanHarianEntry) (j : List Char)
    (hj : ae.jawaban = some j) (hne : j ≠ []) :
    (∀ e ∈ dp.jawaban_harian, ∀ s, tpl.words.find? (fun w => w.no == e.no) = some s →
      (handleMarkSolved dp tpl st ae).solved e.no = false →
      (handleMarkSolved dp tpl st ae).failed e.no = false →
      ∀ w, readSlotCells (handleMarkSolved dp tpl st ae).board s 0 s.length = some w →
        e.jawaban ≠ some w)
    ∧ (∀ e ∈ dp.jawaban_harian, ∀ s, tpl.words.find? (fun w => w.no == e.no) = some s →
      (e.no == ae.no || st.solved e.no) = false → st.failed e.no = false →
      ∀ w, readSlotCells (fillWordOnBoard st.board tpl ae.no j) s 0 s.length = some w →
        e.jawaban = some w → (handleMarkSolved dp tpl st ae).solved e.no = true) := by
  have hms : handleMarkSolved dp tpl st ae =
      { board := fillWordOnBoard st.board tpl ae.no j
        solved := fun n => (n == ae.no || st.solved n) ||
          (dp.jawaban_harian.filter
            (fun e => isAutoSolved (fillWordOnBoard st.board tpl ae.no j) tpl
              (fun m => m == ae.no || st.solved m) st.failed e)).any (fun e => e.no == n)
        failed := fun n => if n == ae.no then false else st.failed n } := by
    simp only [handleMarkSolved, hj, if_neg hne]
  constructor
  · intro e he s hfind hsolved hfailed w hw hjaw2
    rw [hms] at hsolved hfailed hw
    simp only [Bool.or_eq_false_iff] at hsolved
    obtain ⟨⟨hno, hsolvedpre⟩, hauto⟩ := hsolved
    have hfailedpre : st.failed e.no = false := by
      simpa only [hno, Bool.false_eq_true, if_false] using hfailed
    have hisauto : isAutoSolved (fillWordOnBoard st.board tpl ae.no j) tpl
        (fun m => m == ae.no || st.solved m) st.failed e = true := by
      simp only [isAutoSolved, hno, hsolvedpre, hfailedpre, Bool.or_self,
        Bool.false_eq_true, if_false, hfind, hw, hjaw2, beq_self_eq_true]
    have hmem : e ∈ dp.jawaban_harian.filter
        (fun e => isAutoSolved (fillWordOnBoard st.board tpl ae.no j) tpl
          (fun m => m == ae.no || st.solved m) st.failed e) :=
      List.mem_filter.mpr ⟨he, hisauto⟩
    have : (dp.jawaban_harian.filter
        (fun e => isAutoSolved (fillWordOnBoard st.board tpl ae.no j) tpl
          (fun m => m == ae.no || st.solved m) st.failed e)).any (fun x => x.no == e.no) =
        true :=
      List.any_eq_true.mpr ⟨e, hmem, by simp⟩
    rw [this] at hauto
    exact absurd hauto (by simp)
  · intro e he s hfind hsolvedpre hfailedpre w hw hjaw2
    rw [hms]
    have hisauto : isAutoSolved (fillWordOnBoard st.board tpl ae.no j) tpl
        (fun m => m == ae.no || st.solved m) st.failed e = true := by
      simp only [isAutoSolved, hsolvedpre, hfailedpre, Bool.or_self, Bool.false_eq_true,
        if_false, hfind, hw, hjaw2, beq_self_eq_true]
    have hmem : e ∈ dp.jawaban_harian.filter
        (fun e => isAutoSolved (fillWordOnBoard st.board tpl ae.no j) tpl
          (fun m => m == ae.no || st.solved m) st.failed e) :=
      List.mem_filter.mpr ⟨he, hisauto⟩
    have hany : (dp.jawaban_harian.filter
        (fun e => isAutoSolved (fillWordOnBoard st.board tpl ae.no j) tpl
          (fun m => m == ae.no || st.solved m) st.failed e)).any (fun x => x.no == e.no) =
        true :=
      List.any_eq_true.mpr ⟨e, hmem, by simp⟩
    simp only [hany, Bool.or_true]

/-- C3 witness: solving slot 1 of the crossing template writes `B` into the
shared cell and auto-solves slot 2, whose word `BC` is then completed
entirely by shared-cell letters. -/
theorem handleMarkSolved_fixedPoint_witness :
    (handleMarkSolved crossDp crossTpl crossSt
      { no := 1, jawaban := some ['A', 'B'], kbbi_valid := true, playable := true }).solved
        2 = true :=
  (handleMarkSolved_fixedPoint crossDp crossTpl crossSt
      { no := 1, jawaban := some ['A', 'B'], kbbi_valid := true, playable := true }
      ['A', 'B'] rfl (by decide)).2
    { no := 2, jawaban := some ['B', 'C'], kbbi_valid := true, playable := true }
    (by decide)
    { no := 2, arah := Arah.menurun, start := (0, 1), length := 2, word := ['B', 'C'] }
    (by decide) (by decide) (by decide) ['B', 'C'] (by decide) rfl

/-! ### Claim theorems for the backend check endpoint -/

/-- C7 (counterexample): the claim fails for a well-formed request whose
`templateId` parses to the non-integer `0.5`: the word is non-blank,
`slotNo` is a positive integer and `templateId` is present, and the claim
would predict the response `{ valid: true, correct: false }`; but `0.5`
passes the handler's NaN/negative/range guard (one puzzle file is loaded),
`files[0.5]` is `undefined`, and `path.join(PUBLIC_DIR, undefined)`
throws, so the route answers HTTP 500 instead of `{ valid, correct }`. -/
theorem katlaCheck_fractional_id_counterexample :
    katlaCheck (fun n => if n = 2 then some [['A', 'B']] else none)
        [⟨[⟨['A', 'B']⟩]⟩] ⟨some ['A', 'B'], some (some (mkRat 1 2)), some 1⟩ =
      CheckResponse.serverError
    ∧ CheckResponse.serverError ≠ CheckResponse.ok true false := by
  decide

/-- C7 (amended): for every well-formed request (non-blank word, positive
integer `slotNo`, `templateId` present) whose `templateId` parse does not
take the throwing path — it is `NaN`, or an integer, or negative, or at
least `files.length` — the template load returns without throwing and the
handler answers HTTP 200 with `{ valid, correct }`: `valid` holds iff the
trimmed, uppercased word sits in the dictionary bucket keyed by its own
length, and `correct` holds iff it equals the trimmed, uppercased
`answers[slotNo - 1].word` of the identified template. -/
theorem katlaCheck_ok (bank : KbbiBank) (files : List BEPuzzleTemplate)
    (w : List Char) (tid : TemplateIdParse) (sn : Int)
    (hw : jsTrim w ≠ []) (hsn : 1 ≤ sn)
    (htid : tid = none ∨ ∃ q : ℚ, tid = some q ∧
      (q.den = 1 ∨ q < 0 ∨ (files.length : ℚ) ≤ q)) :
    ∃ tplOpt, loadPuzzleTemplateById files tid = Except.ok tplOpt ∧
      katlaCheck bank files ⟨some w, some tid, some sn⟩ =
        CheckResponse.ok (wordValid bank ((jsTrim w).map Char.toUpper))
          (answerMatches tplOpt sn ((jsTrim w).map Char.toUpper))
      ∧ (wordValid bank ((jsTrim w).map Char.toUpper) = true ↔
          ∃ bucket, bank ((jsTrim w).map Char.toUpper).length = some bucket ∧
            ((jsTrim w).map Char.toUpper) ∈ bucket)
      ∧ (answerMatches tplOpt sn ((jsTrim w).map Char.toUpper) = true ↔
          ∃ tpl ans, tplOpt = some tpl ∧
            tpl.answers[(sn - 1).toNat]? = some ans ∧
            (jsTrim w).map Char.toUpper = (jsTrim ans.word).map Char.toUpper) := by
  have hsn2 : ¬ sn < 1 := by omega
  have hload : ∃ tplOpt, loadPuzzleTemplateById files tid = Except.ok tplOpt := by
    rcases htid with h | ⟨q, hq, hcase⟩
    · exact ⟨none, by simp [h, loadPuzzleTemplateById]⟩
    · subst hq
      by_cases hr : q < 0 ∨ (files.length : ℚ) ≤ q
      · exact ⟨none, by simp [loadPuzzleTemplateById, if_pos hr]⟩
      · rcases hcase with hden | h0 | h1
        · exact ⟨files[q.num.toNat]?,
            by simp [loadPuzzleTemplateById, if_neg hr, hden]⟩
        · exact absurd (Or.inl h0) hr
        · exact absurd (Or.inr h1) hr
  obtain ⟨tplOpt, hload⟩ := hload
  refine ⟨tplOpt, hload, ?_, ?_, ?_⟩
  · simp only [katlaCheck, if_neg (by simpa using hw), if_neg hsn2, hload]
  · constructor
    · intro hv
      unfold wordValid at hv
      split at hv
      · rename_i bucket hb
        exact ⟨bucket, hb, by simpa [List.contains, List.elem_iff] using hv⟩
      · exact absurd hv (by simp)
    · rintro ⟨bucket, hb, hmem⟩
      unfold wordValid
      simp only [hb]
      simpa [List.contains, List.elem_iff] using hmem
  · constructor
    · intro hc
      cases tplOpt with
      | none => exact absurd hc (by simp [answerMatches])
      | some tpl =>
        simp only [answerMatches] at hc
        split at hc
        · rename_i ans hans
          exact ⟨tpl, ans, rfl, hans, by simpa using hc⟩
        · exact absurd hc (by simp)
    · rintro ⟨tpl, ans, htpl, hans, heq⟩
      subst htpl
      simp only [answerMatches, hans]
      simpa using heq

/-- C7 witness: a one-template, one-bucket backend answering a well-formed
request whose `templateId` parses to the integer `0`. -/
theorem katlaCheck_ok_witness :
    katlaCheck (fun n => if n = 2 then some [['A', 'B']] else none)
        [⟨[⟨['A', 'B']⟩]⟩] ⟨some ['a', 'b'], some (some (0 : ℚ)), some 1⟩ =
      CheckResponse.ok true true := by
  obtain ⟨tplOpt, hload, hresp, hv, hc⟩ :=
    katlaCheck_ok (fun n => if n = 2 then some [['A', 'B']] else none)
      [⟨[⟨['A', 'B']⟩]⟩] ['a', 'b'] (some (0 : ℚ)) 1 (by decide) (by decide)
      (Or.inr ⟨0, rfl, Or.inl (by decide)⟩)
  have heval : loadPuzzleTemplateById [⟨[⟨['A', 'B']⟩]⟩] (some (0 : ℚ)) =
      Except.ok (some ⟨[⟨['A', 'B']⟩]⟩) := by
    simp [loadPuzzleTemplateById]
  rw [heval] at hload
  injection hload with hload2
  subst hload2
  exact hresp.trans (by decide)

/-- C10: a well-formed request whose `templateId` identifies no template
(NaN parse, negative, or at least the file count — integer or not) or
whose `slotNo` points past the loaded template's answers still gets
HTTP 200 with `correct = false`, `valid` being computed from the
dictionary alone. -/
theorem katlaCheck_unknownTemplate (bank : KbbiBank) (files : List BEPuzzleTemplate)
    (w : List Char) (tid : TemplateIdParse) (sn : Int)
    (hw : jsTrim w ≠ []) (hsn : 1 ≤ sn)
    (h : tid = none
      ∨ (∃ q : ℚ, tid = some q ∧ (q < 0 ∨ (files.length : ℚ) ≤ q))
      ∨ (∃ tpl, loadPuzzleTemplateById files tid = Except.ok (some tpl) ∧
          tpl.answers[(sn - 1).toNat]? = none)) :
    katlaCheck bank files ⟨some w, some tid, some sn⟩ =
      CheckResponse.ok (wordValid bank ((jsTrim w).map Char.toUpper)) false := by
  have hsn2 : ¬ sn < 1 := by omega
  have hmain : ∃ tplOpt, loadPuzzleTemplateById files tid = Except.ok tplOpt ∧
      answerMatches tplOpt sn ((jsTrim w).map Char.toUpper) = false := by
    rcases h with h | ⟨q, hq, hr⟩ | ⟨tpl, htpl, hans⟩
    · exact ⟨none, by simp [h, loadPuzzleTemplateById], rfl⟩
    · subst hq
      exact ⟨none, by simp [loadPuzzleTemplateById, if_pos hr], rfl⟩
    · refine ⟨some tpl, htpl, ?_⟩
      unfold answerMatches
      simp only [hans]
  obtain ⟨tplOpt, hload, hfalse⟩ := hmain
  simp only [katlaCheck, if_neg (by simpa using hw), if_neg hsn2, hload, hfalse]

/-- C10 witness: same backend as the C7 witness, queried with an
out-of-range template index; the word is still reported valid. -/
theorem katlaCheck_unknownTemplate_witness :
    katlaCheck (fun n => if n = 2 then some [['A', 'B']] else none)
        [⟨[⟨['A', 'B']⟩]⟩] ⟨some ['a', 'b'], some (some (7 : ℚ)), some 1⟩ =
      CheckResponse.ok (wordValid (fun n => if n = 2 then some [['A', 'B']] else none)
        ['A', 'B']) false :=
  katlaCheck_unknownTemplate (fun n => if n = 2 then some [['A', 'B']] else none)
    [⟨[⟨['A', 'B']⟩]⟩] ['a', 'b'] (some (7 : ℚ)) 1 (by decide) (by decide)
    (Or.inr (Or.inl ⟨7, rfl, Or.inr (by decide)⟩))
